import Mathlib

/-!
Verification of the ast-parser inference core against its specification.

The Python modules `parser/context.py`, `parser/helpers.py`,
`parser/manager.py` and `parser/builder.py` are shallowly embedded below.
Mutable object state (the visited set and the shared budget cell of an
inference context, the memoised `_all_bases_known` attribute of a class,
the module-resolution cache) is made explicit as state threaded through
the functions; fallible operations return `Except`; a generator is
modelled by the finite sequence of values it yields, possibly followed by
a raised error.
-/

namespace AstParser

deriving instance DecidableEq for Except

/-! ### Embedding of `parser/context.py`

An `InferenceContext` aliases two pieces of mutable state: its visited
set `path` (a Python `set`, copied by value in `clone`) and its budget
cell `_nodes_inferred` (a one-element list, shared between clones).  To
make copying versus sharing observable, both live in an explicit `Heap`
and the context stores references into it. -/

abbrev NodeId := Nat

/-- An element of `InferenceContext.path`: a `(node, lookupname)` pair. -/
abbrev PathEntry := NodeId × Option String

/-- The mutable store: `paths` holds the visited sets of the live
contexts, `cells` holds the `_nodes_inferred` budget cells. -/
structure Heap where
  paths : List (List PathEntry)
  cells : List Nat
deriving Repr, DecidableEq

def Heap.getPath (h : Heap) (r : Nat) : List PathEntry := h.paths.getD r []

def Heap.setPath (h : Heap) (r : Nat) (s : List PathEntry) : Heap :=
  { h with paths := h.paths.set r s }

def Heap.allocPath (h : Heap) (s : List PathEntry) : Nat × Heap :=
  (h.paths.length, { h with paths := h.paths ++ [s] })

def Heap.getCell (h : Heap) (r : Nat) : Nat := h.cells.getD r 0

def Heap.setCell (h : Heap) (r : Nat) (v : Nat) : Heap :=
  { h with cells := h.cells.set r v }

def Heap.allocCell (h : Heap) (v : Nat) : Nat × Heap :=
  (h.cells.length, { h with cells := h.cells ++ [v] })

/-- `InferenceContext` (`parser/context.py`).  `pathRef` and
`nodesInferredRef` are references into the `Heap`; the remaining slots
are plain values, as in the source. -/
structure InferenceContext where
  pathRef : Nat
  lookupname : Option String
  callcontext : Option Nat
  boundnode : Option NodeId
  extra_context : List (NodeId × Nat)
  nodesInferredRef : Nat
deriving Repr, DecidableEq

/-- Class attribute `InferenceContext.max_inferred = 100`. -/
def InferenceContext.max_inferred : Nat := 100

/-- `InferenceContext.__init__` with `path=None, nodes_inferred=None`:
a fresh empty visited set and a fresh budget cell holding `[0]`. -/
def InferenceContext.init (h : Heap) : InferenceContext × Heap :=
  let (c, h1) := h.allocCell 0
  let (p, h2) := h1.allocPath []
  ({ pathRef := p, lookupname := none, callcontext := none,
     boundnode := none, extra_context := [], nodesInferredRef := c }, h2)

/-- The `nodes_inferred` property getter: `self._nodes_inferred[0]`. -/
def InferenceContext.nodes_inferred (ctx : InferenceContext) (h : Heap) : Nat :=
  h.getCell ctx.nodesInferredRef

/-- The `nodes_inferred` property setter: `self._nodes_inferred[0] = value`. -/
def InferenceContext.set_nodes_inferred (ctx : InferenceContext) (h : Heap)
    (v : Nat) : Heap :=
  h.setCell ctx.nodesInferredRef v

/-- `InferenceContext.push(node)`: report `True` and leave the visited
set alone if `(node, self.lookupname)` is already in it, else insert the
pair and report `False`. -/
def InferenceContext.push (ctx : InferenceContext) (node : NodeId) (h : Heap) :
    Bool × Heap :=
  let name := ctx.lookupname
  let p := h.getPath ctx.pathRef
  if (node, name) ∈ p then (true, h)
  else (false, h.setPath ctx.pathRef ((node, name) :: p))

/-- `InferenceContext.clone()`: a new context built from
`InferenceContext(self.path.copy(), nodes_inferred=self._nodes_inferred)`
whose `callcontext`, `boundnode` and `extra_context` slots are then
copied over.  The constructor leaves `lookupname` at `None`, and `clone`
does not reassign it (the source notes `XXX copy lookupname/callcontext ?`). -/
def InferenceContext.clone (ctx : InferenceContext) (h : Heap) :
    InferenceContext × Heap :=
  let (r, h') := h.allocPath (h.getPath ctx.pathRef)
  ({ pathRef := r, lookupname := none, callcontext := ctx.callcontext,
     boundnode := ctx.boundnode, extra_context := ctx.extra_context,
     nodesInferredRef := ctx.nodesInferredRef }, h')

/-! Generic list lemmas used by the heap reasoning. -/

theorem getD_append_len {α : Type} (l : List α) (a d : α) :
    (l ++ [a]).getD l.length d = a := by
  induction l with
  | nil => rfl
  | cons x xs ih =>
    simp only [List.cons_append, List.length_cons, List.getD_cons_succ]
    exact ih

theorem getD_append_lt {α : Type} (l m : List α) (i : Nat) (d : α)
    (h : i < l.length) : (l ++ m).getD i d = l.getD i d := by
  induction l generalizing i with
  | nil => exact absurd h (Nat.not_lt_zero i)
  | cons x xs ih =>
    cases i with
    | zero => rfl
    | succ n =>
      simp only [List.cons_append, List.getD_cons_succ]
      exact ih n (Nat.lt_of_succ_lt_succ h)

theorem getD_set_eq {α : Type} (l : List α) (i : Nat) (a d : α)
    (h : i < l.length) : (l.set i a).getD i d = a := by
  induction l generalizing i with
  | nil => exact absurd h (Nat.not_lt_zero i)
  | cons x xs ih =>
    cases i with
    | zero => rfl
    | succ n =>
      simp only [List.set_cons_succ, List.getD_cons_succ]
      exact ih n (Nat.lt_of_succ_lt_succ h)

theorem getD_set_ne {α : Type} (l : List α) (i j : Nat) (a d : α)
    (h : i ≠ j) : (l.set i a).getD j d = l.getD j d := by
  induction l generalizing i j with
  | nil => rfl
  | cons x xs ih =>
    cases i with
    | zero =>
      cases j with
      | zero => exact absurd rfl h
      | succ m => rfl
    | succ n =>
      cases j with
      | zero => rfl
      | succ m =>
        simp only [List.set_cons_succ, List.getD_cons_succ]
        exact ih n m (fun e => h (by simpa using congrArg Nat.succ e))

/-- C1 (amended): `clone(c)` returns a context whose visited set is a
fresh, independent by-value copy of `c`'s visited set (pushing into the
clone leaves `c`'s set untouched), whose budget counter is the very same
shared cell as `c`'s (a write through either context is read back through
both, the cap being the class constant 100), and which carries over `c`'s
call context, bound node and extension map — while its lookup name is
reset to `None` rather than copied. -/
theorem C1_clone_spec (ctx : InferenceContext) (h : Heap)
    (hr : ctx.pathRef < h.paths.length) :
    ((ctx.clone h).1.pathRef ≠ ctx.pathRef) ∧
    ((ctx.clone h).2.getPath (ctx.clone h).1.pathRef = h.getPath ctx.pathRef) ∧
    ((ctx.clone h).2.getPath ctx.pathRef = h.getPath ctx.pathRef) ∧
    (∀ n : NodeId,
      (((ctx.clone h).1.push n (ctx.clone h).2).2).getPath ctx.pathRef
        = h.getPath ctx.pathRef) ∧
    ((ctx.clone h).1.nodesInferredRef = ctx.nodesInferredRef) ∧
    (∀ (h' : Heap) (v : Nat),
      ctx.nodes_inferred ((ctx.clone h).1.set_nodes_inferred h' v)
        = (ctx.clone h).1.nodes_inferred ((ctx.clone h).1.set_nodes_inferred h' v)) ∧
    InferenceContext.max_inferred = 100 ∧
    ((ctx.clone h).1.lookupname = none) ∧
    ((ctx.clone h).1.callcontext = ctx.callcontext) ∧
    ((ctx.clone h).1.boundnode = ctx.boundnode) ∧
    ((ctx.clone h).1.extra_context = ctx.extra_context) := by
  have hne : h.paths.length ≠ ctx.pathRef := (Nat.ne_of_lt hr).symm
  refine ⟨hne, ?_, ?_, ?_, rfl, ?_, rfl, rfl, rfl, rfl, rfl⟩
  · show (h.paths ++ [h.getPath ctx.pathRef]).getD h.paths.length [] = _
    exact getD_append_len _ _ _
  · show (h.paths ++ [h.getPath ctx.pathRef]).getD ctx.pathRef [] = _
    exact getD_append_lt _ _ _ _ hr
  · intro n
    show (InferenceContext.push _ n _).2.getPath ctx.pathRef = _
    rw [InferenceContext.push]
    split
    · show (h.paths ++ [h.getPath ctx.pathRef]).getD ctx.pathRef [] = _
      exact getD_append_lt _ _ _ _ hr
    · show ((h.paths ++ [h.getPath ctx.pathRef]).set h.paths.length _).getD
        ctx.pathRef [] = _
      rw [getD_set_ne _ _ _ _ _ hne]
      exact getD_append_lt _ _ _ _ hr
  · intro h' v
    rfl

def C1ctx : InferenceContext :=
  { pathRef := 0, lookupname := some "x", callcontext := some 5,
    boundnode := some 3, extra_context := [(1, 2)], nodesInferredRef := 0 }

def C1heap : Heap := { paths := [[(9, some "n")]], cells := [7] }

/-- C1 witness: the amended clone contract evaluated on a concrete
context and heap. -/
theorem C1_clone_spec_witness :
    C1ctx.pathRef < C1heap.paths.length ∧
    (C1ctx.clone C1heap).1.pathRef ≠ C1ctx.pathRef ∧
    (C1ctx.clone C1heap).2.getPath (C1ctx.clone C1heap).1.pathRef
      = C1heap.getPath C1ctx.pathRef ∧
    (((C1ctx.clone C1heap).1.push 4 (C1ctx.clone C1heap).2).2).getPath C1ctx.pathRef
      = C1heap.getPath C1ctx.pathRef ∧
    (C1ctx.clone C1heap).1.nodesInferredRef = C1ctx.nodesInferredRef ∧
    (C1ctx.clone C1heap).1.lookupname = none := by
  obtain ⟨a, b, c, d, e, f, g, i, j, k, l⟩ :=
    C1_clone_spec C1ctx C1heap (by decide)
  exact ⟨by decide, a, b, d 4, e, i⟩

/-- C1 counterexample: the claim as stated says the clone carries a copy
of `c`'s lookup name; on a context whose lookup name is `some "x"` the
clone's lookup name is `none` instead. -/
theorem C1_clone_lookupname_cex :
    (C1ctx.clone C1heap).1.lookupname ≠ C1ctx.lookupname := by decide

/-- C2: `push` reports "already visited" (`True`) exactly when
`(node, lookupname)` is already in the visited set, leaving the set
unchanged in that case; otherwise it inserts the pair and reports
"proceed" (`False`).  Two consecutive pushes of the same node under the
same lookup name therefore report `False` then `True`. -/
theorem C2_push_cycle_guard (ctx : InferenceContext) (h : Heap) (n : NodeId)
    (hr : ctx.pathRef < h.paths.length) :
    ((ctx.push n h).1 = true ↔ (n, ctx.lookupname) ∈ h.getPath ctx.pathRef) ∧
    ((n, ctx.lookupname) ∈ h.getPath ctx.pathRef → (ctx.push n h).2 = h) ∧
    ((n, ctx.lookupname) ∉ h.getPath ctx.pathRef →
      (ctx.push n h).1 = false ∧
      (ctx.push n h).2.getPath ctx.pathRef
        = (n, ctx.lookupname) :: h.getPath ctx.pathRef) ∧
    ((ctx.push n h).1 = false → (ctx.push n ((ctx.push n h).2)).1 = true) := by
  by_cases hm : (n, ctx.lookupname) ∈ h.getPath ctx.pathRef
  · constructor
    · simp [InferenceContext.push, hm]
    · refine ⟨fun _ => by simp [InferenceContext.push, hm], fun hc => absurd hm hc, ?_⟩
      intro hfalse
      have : (ctx.push n h).1 = true := by simp [InferenceContext.push, hm]
      rw [this] at hfalse
      exact absurd hfalse (by simp)
  · have h1 : (ctx.push n h).1 = false := by simp [InferenceContext.push, hm]
    have h2 : (ctx.push n h).2.getPath ctx.pathRef
        = (n, ctx.lookupname) :: h.getPath ctx.pathRef := by
      show (if (n, ctx.lookupname) ∈ h.getPath ctx.pathRef then (true, h)
        else (false, h.setPath ctx.pathRef
          ((n, ctx.lookupname) :: h.getPath ctx.pathRef))).2.getPath ctx.pathRef = _
      rw [if_neg hm]
      show (h.paths.set ctx.pathRef _).getD ctx.pathRef [] = _
      exact getD_set_eq _ _ _ _ hr
    refine ⟨?_, fun hc => absurd hc hm, fun _ => ⟨h1, h2⟩, ?_⟩
    · rw [h1]
      simp [hm]
    · intro _
      have hmem : (n, ctx.lookupname) ∈ (ctx.push n h).2.getPath ctx.pathRef := by
        rw [h2]
        exact List.mem_cons_self _ _
      generalize hgen : (ctx.push n h).2 = hp at hmem ⊢
      simp [InferenceContext.push, hmem]

def C2ctx : InferenceContext :=
  { pathRef := 0, lookupname := some "y", callcontext := none,
    boundnode := none, extra_context := [], nodesInferredRef := 0 }

def C2heap : Heap := { paths := [[]], cells := [0] }

/-- C2 witness: on an empty visited set, pushing node 3 reports
`False` and inserts `(3, some "y")`; pushing it again reports `True`. -/
theorem C2_push_cycle_guard_witness :
    C2ctx.pathRef < C2heap.paths.length ∧
    (C2ctx.push 3 C2heap).1 = false ∧
    (C2ctx.push 3 C2heap).2.getPath C2ctx.pathRef
      = (3, some "y") :: C2heap.getPath C2ctx.pathRef ∧
    (C2ctx.push 3 ((C2ctx.push 3 C2heap).2)).1 = true := by
  obtain ⟨a, b, c, d⟩ := C2_push_cycle_guard C2ctx C2heap 3 (by decide)
  obtain ⟨c1, c2⟩ := c (by decide)
  exact ⟨by decide, c1, c2, d c1⟩

/-! ### Embedding of `parser/helpers.py`: `_object_type` / `object_type`

An inferred value, as dispatched by `_object_type`.  In the source's
class hierarchy `BoundMethod` is a subclass of `UnboundMethod`, and
`Const` and the container nodes are subclasses of `bases.Instance`
(itself a `bases.Proxy`); the closed variants below reproduce the
`isinstance` dispatch of `_object_type` over those kinds. -/

inductive Value where
  | classDef (newstyle : Bool) (metaclass : Option Nat)
  | lambdaFn (rootBuiltins : Bool)
  | unboundMethod
  | boundMethod
  | module
  | unknown
  | uninferable
  | proxyVal (proxied : Nat)
  | otherVal
deriving Repr, DecidableEq

/-- `_function_type`: the proxy-class name chosen for a callable. -/
def function_type : Value → String
  | .lambdaFn true => "builtin_function_or_method"
  | .lambdaFn false => "function"
  | .boundMethod => "method"
  | _ => "function"

/-- A runtime type produced by `_object_type`: the `builtins` class
`type`, a metaclass, a proxy class built by `_build_proxy_class`, the
`Uninferable` sentinel, or a value's `_proxied` class. -/
inductive PyType where
  | builtinType
  | metaclassOf (m : Nat)
  | proxyClass (cls_name : String)
  | uninferable
  | proxied (cls : Nat)
deriving Repr, DecidableEq

inductive ObjTypeErr where
  | inferenceErr
  | assertionErr
deriving Repr, DecidableEq

/-- One step of the `_object_type` generator: the type yielded for a
single inferred value, or the error it raises (`Unknown` raises the
inference error caught by `object_type`; an unhandled kind raises
`AssertionError`, which is not caught). -/
def object_type_one : Value → Except ObjTypeErr PyType
  | .classDef true (some m) => .ok (.metaclassOf m)
  | .classDef true none => .ok .builtinType
  | .classDef false _ => .ok .builtinType
  | .lambdaFn b => .ok (.proxyClass (function_type (.lambdaFn b)))
  | .unboundMethod => .ok (.proxyClass (function_type .unboundMethod))
  | .boundMethod => .ok (.proxyClass (function_type .boundMethod))
  | .module => .ok (.proxyClass "module")
  | .unknown => .error .inferenceErr
  | .uninferable => .ok .uninferable
  | .proxyVal c => .ok (.proxied c)
  | .otherVal => .error .assertionErr

/-- `_object_type(node, context)`: map each value inferred for the node
to a type; the first raised error aborts the generator. -/
def object_type_gen (vals : List Value) : Except ObjTypeErr (List PyType) :=
  vals.mapM object_type_one

/-- `object_type(node, context)`: collect the distinct types, return
`Uninferable` on an inference error or when the distinct types do not
number exactly one, else the single type. -/
def object_type (vals : List Value) : Except ObjTypeErr PyType :=
  match object_type_gen vals with
  | .error .inferenceErr => .ok .uninferable
  | .error e => .error e
  | .ok ts =>
    match ts.dedup with
    | [t] => .ok t
    | _ => .ok .uninferable

/-- C3: `object_type` maps each distinct inferred value to a runtime
type and collapses three ways: exactly one distinct mapped type is
returned as-is; zero or more than one distinct mapped types give the
`Uninferable` sentinel, with no exception escaping in the ambiguity
case and never a set of types. -/
theorem C3_object_type_collapse (vals : List Value) (ts : List PyType)
    (h : object_type_gen vals = .ok ts) :
    (∀ t, ts.dedup = [t] → object_type vals = .ok t) ∧
    (ts.dedup.length ≠ 1 → object_type vals = .ok .uninferable) := by
  constructor
  · intro t hd
    simp [object_type, h, hd]
  · intro hlen
    simp only [object_type, h]
    match hd : ts.dedup with
    | [] => simp
    | [t] => rw [hd] at hlen; simp at hlen
    | t :: u :: rest => simp

/-- C3 witness: a node inferring twice to a module collapses to the
single proxy type `module`; a node inferring to a class and a module
is ambiguous and collapses to `Uninferable`. -/
theorem C3_object_type_collapse_witness :
    object_type [.module, .module] = .ok (.proxyClass "module") ∧
    object_type [.classDef true none, .module] = .ok .uninferable := by
  constructor
  · exact (C3_object_type_collapse [.module, .module]
      [.proxyClass "module", .proxyClass "module"] rfl).1
      (.proxyClass "module") (by decide)
  · exact (C3_object_type_collapse [.classDef true none, .module]
      [.builtinType, .proxyClass "module"] rfl).2 (by decide)

/-! ### Embedding of `parser/helpers.py`: `safe_infer` -/

/-- A run of the generator `node.infer(context)` as consumed by its
caller: the values it yields in order and whether, after those, the
next demand raises an inference error (`err = true`) or the generator
is exhausted (`err = false`, a `StopIteration`). -/
structure InferStream (α : Type) where
  vals : List α
  err : Bool
deriving Repr, DecidableEq

/-- `safe_infer(node, context)`: the single inferred value if inference
yields exactly one value and stops; `None` on zero values, on an
inference error at either of the two demands, or on a second value. -/
def safe_infer {α : Type} (s : InferStream α) : Option α :=
  match s.vals with
  | [] => none
  | [v] => if s.err then none else some v
  | _ :: _ :: _ => none

/-- C4: `safe_infer` returns the single inferred value when inference
yields exactly one value (and completes), and returns `none` when
inference yields zero values, yields more than one value, or raises an
inference error; the `Option` return type itself records that the
inference error is never propagated. -/
theorem C4_safe_infer_single (s : InferStream Value) :
    (∀ v, s.vals = [v] → s.err = false → safe_infer s = some v) ∧
    (s.vals = [] → safe_infer s = none) ∧
    (2 ≤ s.vals.length → safe_infer s = none) ∧
    (∀ v, s.vals = [v] → s.err = true → safe_infer s = none) := by
  refine ⟨?_, ?_, ?_, ?_⟩
  · intro v hv he
    simp [safe_infer, hv, he]
  · intro hv
    simp [safe_infer, hv]
  · intro hlen
    match hv : s.vals with
    | [] => rw [hv] at hlen; simp at hlen
    | [v] => rw [hv] at hlen; simp at hlen
    | a :: b :: rest => simp [safe_infer, hv]
  · intro v hv he
    simp [safe_infer, hv, he]

/-- C4 witness: the four behaviours of `safe_infer` on concrete
generator runs. -/
theorem C4_safe_infer_single_witness :
    safe_infer (InferStream.mk [Value.module] false) = some Value.module ∧
    safe_infer (InferStream.mk ([] : List Value) true) = none ∧
    safe_infer (InferStream.mk [Value.module, Value.uninferable] false) = none ∧
    safe_infer (InferStream.mk [Value.module] true) = none := by
  refine ⟨?_, ?_, ?_, ?_⟩
  · exact (C4_safe_infer_single (InferStream.mk [Value.module] false)).1
      Value.module rfl rfl
  · exact (C4_safe_infer_single (InferStream.mk [] true)).2.1 rfl
  · exact (C4_safe_infer_single
      (InferStream.mk [Value.module, Value.uninferable] false)).2.2.1 (by decide)
  · exact (C4_safe_infer_single (InferStream.mk [Value.module] true)).2.2.2
      Value.module rfl rfl

/-! ### Embedding of `parser/helpers.py`: `object_len`

`object_len` dispatches on the value `safe_infer` produced for the node.
The kinds that matter to it are closed off below: a `Const` (whose
payload is a string, a byte string, an integer or something else, and
whose `_proxied` attribute is the class standing for its runtime type),
the four container nodes with their element lists, a `Dict` with its
pair list, an `Instance` proxying a class, and the `Uninferable`
sentinel.  Elements and classes are referenced by numeric identity. -/

inductive PyConst where
  | strC (cs : List Char)
  | bytesC (bs : List Nat)
  | intC (n : Int)
  | otherC
deriving Repr, DecidableEq

inductive LenVal where
  | constV (c : PyConst) (proxied : Nat)
  | listV (elts : List Nat)
  | setV (elts : List Nat)
  | tupleV (elts : List Nat)
  | frozensetV (elts : List Nat)
  | dictV (items : List (Nat × Nat))
  | instV (proxied : Nat)
  | uninf
deriving Repr, DecidableEq

/-- `node.frame(future=True)`: either a `FunctionDef` (with its name and
the identity of its parent node) or some other frame kind. -/
inductive Frame where
  | functionDef (name : String) (parent : Nat)
  | otherFrame
deriving Repr, DecidableEq

def frameIsFunctionDef : Frame → Bool
  | .functionDef _ _ => true
  | .otherFrame => false

/-- A Python object as it appears in the guard comparison
`node_frame == "__len__"` of `object_len`: a frame node or a string. -/
inductive PyObj where
  | frameObj (f : Frame)
  | strObj (s : String)

/-- Python `==` over those objects: two frame nodes compare by node
equality, two strings by value, and a node never equals a string (the
default cross-type `==` is identity-based and thus false). -/
def py_eq : PyObj → PyObj → Bool
  | .frameObj a, .frameObj b => a == b
  | .strObj a, .strObj b => a == b
  | _, _ => false

/-- The `_proxied` attribute (`hasattr(inferred_node, "_proxied")` plus
its value) of a safe-inferred value; the container kinds are consumed by
the literal branches of `object_len`, and the short-circuit of the
guard's conjunction never reaches the `hasattr` test, so only the kinds
the guard could observe need an attribute here. -/
def LenVal.proxiedAttr : LenVal → Option Nat
  | .constV _ p => some p
  | .instV p => some p
  | _ => none

/-- The guard's trailing conjuncts: `hasattr(inferred_node, "_proxied")
and inferred_node._proxied == node_frame.parent`. -/
def proxMatches (inferred : Option LenVal) (f : Frame) : Bool :=
  match f with
  | .functionDef _ parent =>
    match inferred.bind LenVal.proxiedAttr with
    | some p => p == parent
    | none => false
  | .otherFrame => false

/-- `bases.Instance`-ness of a value: `Const` and the container nodes
are `Instance` subclasses in the source's hierarchy. -/
def LenVal.isInstance : LenVal → Bool
  | .constV _ _ => true
  | .instV _ => true
  | .listV _ => true
  | .setV _ => true
  | .tupleV _ => true
  | .frozensetV _ => true
  | .dictV _ => true
  | .uninf => false

inductive LenErr where
  | recursionHazard
  | inferErr
  | typeErr
deriving Repr, DecidableEq

/-- The data `object_len` consumes: the node's inference run (fed to
`safe_infer`), its frame, and the outcome of the `__len__` protocol on
the fallback path — whether `igetattr("__len__")` yields a method,
whether `infer_call_result` is itself `Uninferable`, the first result it
yields (`next(inferred, None)`), and whether that result, when an
instance, `is_subtype_of("builtins.int")`. -/
structure LenEnv where
  stream : InferStream LenVal
  frame : Frame
  lenAttrFound : Bool
  callResultUninferable : Bool
  resultOfLen : Option LenVal
  resultIsIntSub : Bool
deriving Repr, DecidableEq

/-- The tail of `object_len`: `node_type = object_type(inferred_node)`
(for the `Const`/`Instance` values that reach this point, the single
type is the value's `_proxied` class, and `if not node_type` fires only
for a falsy `Uninferable` type), then the `__len__` lookup and call. -/
def object_len_tail (env : LenEnv) (v : LenVal) : Except LenErr Int :=
  match v.proxiedAttr with
  | none => .error .inferErr
  | some _ =>
    if !env.lenAttrFound then .error .typeErr
    else if env.callResultUninferable then .error .inferErr
    else
      match env.resultOfLen with
      | some (.constV (.intC n) _) => .ok n
      | none => .ok 0
      | some r => if r.isInstance && env.resultIsIntSub then .ok 0
                  else .error .typeErr

/-- `object_len(node, context)`.  The guard reproduces the source's
condition `isinstance(node_frame, FunctionDef) and node_frame ==
"__len__" and hasattr(inferred_node, "_proxied") and
inferred_node._proxied == node_frame.parent` — note the second conjunct
compares the frame node itself (not its name) with the string. -/
def object_len (env : LenEnv) : Except LenErr Int :=
  let inferred_node := safe_infer env.stream
  let node_frame := env.frame
  if frameIsFunctionDef node_frame
      && py_eq (.frameObj node_frame) (.strObj "__len__")
      && proxMatches inferred_node node_frame then
    .error .recursionHazard
  else
    match inferred_node with
    | none => .error .inferErr
    | some .uninf => .error .inferErr
    | some (.constV (.strC cs) _) => .ok cs.length
    | some (.constV (.bytesC bs) _) => .ok bs.length
    | some (.listV e) => .ok e.length
    | some (.setV e) => .ok e.length
    | some (.tupleV e) => .ok e.length
    | some (.frozensetV e) => .ok e.length
    | some (.dictV its) => .ok its.length
    | some v => object_len_tail env v

/-- C5: for a node that safe-infers to a single literal, `object_len`
returns the character or byte count of a string or bytes constant, the
element count of a list, set, tuple or frozenset literal, and the pair
count of a mapping literal. -/
theorem C5_object_len_literals (env : LenEnv) :
    (∀ cs p, safe_infer env.stream = some (.constV (.strC cs) p) →
      object_len env = .ok cs.length) ∧
    (∀ bs p, safe_infer env.stream = some (.constV (.bytesC bs) p) →
      object_len env = .ok bs.length) ∧
    (∀ e, safe_infer env.stream = some (.listV e) →
      object_len env = .ok e.length) ∧
    (∀ e, safe_infer env.stream = some (.setV e) →
      object_len env = .ok e.length) ∧
    (∀ e, safe_infer env.stream = some (.tupleV e) →
      object_len env = .ok e.length) ∧
    (∀ e, safe_infer env.stream = some (.frozensetV e) →
      object_len env = .ok e.length) ∧
    (∀ its, safe_infer env.stream = some (.dictV its) →
      object_len env = .ok its.length) := by
  have hguard : ∀ f : Frame, py_eq (.frameObj f) (.strObj "__len__") = false := by
    intro f
    rfl
  refine ⟨?_, ?_, ?_, ?_, ?_, ?_, ?_⟩
  · intro cs p hp
    simp [object_len, hp, hguard]
  · intro bs p hp
    simp [object_len, hp, hguard]
  · intro e he
    simp [object_len, he, hguard]
  · intro e he
    simp [object_len, he, hguard]
  · intro e he
    simp [object_len, he, hguard]
  · intro e he
    simp [object_len, he, hguard]
  · intro its hi
    simp [object_len, hi, hguard]

def C5envTuple : LenEnv :=
  { stream := InferStream.mk [.tupleV [1, 2, 3]] false, frame := .otherFrame,
    lenAttrFound := false, callResultUninferable := false,
    resultOfLen := none, resultIsIntSub := false }

def C5envStr : LenEnv :=
  { stream := InferStream.mk [.constV (.strC ['a', 'b', 'c', 'd']) 11] false,
    frame := .otherFrame, lenAttrFound := false, callResultUninferable := false,
    resultOfLen := none, resultIsIntSub := false }

def C5envDict : LenEnv :=
  { stream := InferStream.mk [.dictV []] false, frame := .otherFrame,
    lenAttrFound := false, callResultUninferable := false,
    resultOfLen := none, resultIsIntSub := false }

/-- C5 witness: `object_len` of the literal `(1,2,3)` is 3, of the
literal `"abcd"` is 4, and of the empty mapping literal is 0. -/
theorem C5_object_len_literals_witness :
    object_len C5envTuple = .ok 3 ∧
    object_len C5envStr = .ok 4 ∧
    object_len C5envDict = .ok 0 := by
  refine ⟨?_, ?_, ?_⟩
  · exact (C5_object_len_literals C5envTuple).2.2.2.2.1 [1, 2, 3] rfl
  · exact (C5_object_len_literals C5envStr).1 ['a', 'b', 'c', 'd'] 11 rfl
  · exact (C5_object_len_literals C5envDict).2.2.2.2.2.2 [] rfl

/-- A node sitting in the body of a method definition named `__len__`
whose parent is class 7, and which safe-infers to an instance of that
very class 7 — exactly the self-referential situation the recursion
guard is written for.  The fallback oracle lets the `__len__` call
come back with the constant 5. -/
def C6env : LenEnv :=
  { stream := InferStream.mk [.instV 7] false,
    frame := .functionDef "__len__" 7,
    lenAttrFound := true, callResultUninferable := false,
    resultOfLen := some (.constV (.intC 5) 3), resultIsIntSub := false }

/-- C6: on the self-referential `__len__` input above, the source's
guard condition `node_frame == "__len__"` compares the frame node
itself — not its name — with a string, which is never true, so the
dedicated recursion-hazard error is not raised: `object_len` proceeds
into the `__len__` call protocol (an unbounded recursion in the real
program) instead of failing fast. -/
theorem C6_len_guard_disabled :
    object_len C6env = .ok 5 ∧
    object_len C6env ≠ .error .recursionHazard := by
  decide

/-! ### Embedding of `parser/helpers.py`: `has_known_bases`, `_type_check`,
`is_subtype`, `is_supertype`

Classes are referenced by identity.  `ClassEnv.bases k` lists, for each
base expression of class `k`, the outcome of safe-inferring it (`some r`
when it infers to the `ClassDef` `r`, `none` when it infers to no value
or to something that is not a `ClassDef`); `mro k` is `k`'s
method-resolution order, `none` standing for an `MroError`.  The
memoised `_all_bases_known` attributes form an explicit store `Memo`
threaded through the functions, and a fuel argument bounds the
recursion of `has_known_bases` (the source has no cycle check there and
would recurse; `none` stands for that non-termination). -/

abbrev ClassId := Nat

abbrev Memo := List (ClassId × Bool)

def memo_lookup (k : ClassId) : Memo → Option Bool
  | [] => none
  | (k', v) :: rest => if k' = k then some v else memo_lookup k rest

structure ClassEnv where
  bases : ClassId → List (Option ClassId)
  newstyle : ClassId → Bool
  mro : ClassId → Option (List ClassId)

/-- The base loop of `has_known_bases`: for each base, fail (recording
`False` on the class) if it did not infer to a `ClassDef`, if it is the
class itself, or if its own bases are not known; record `True` after a
clean pass.  `g` is the recursive call at the remaining fuel. -/
def has_known_bases_aux (g : Memo → ClassId → Option (Bool × Memo))
    (k : ClassId) : List (Option ClassId) → Memo → Option (Bool × Memo)
  | [], m => some (true, (k, true) :: m)
  | none :: _, m => some (false, (k, false) :: m)
  | some r :: rest, m =>
    if r = k then some (false, (k, false) :: m)
    else
      match g m r with
      | none => none
      | some (true, m') => has_known_bases_aux g k rest m'
      | some (false, m') => some (false, (k, false) :: m')

/-- `has_known_bases(klass)`: return the memoised `_all_bases_known`
attribute when present, else walk the bases and memoise the outcome. -/
def has_known_bases (env : ClassEnv) : Nat → Memo → ClassId → Option (Bool × Memo)
  | 0, _, _ => none
  | f + 1, memo, k =>
    match memo_lookup k memo with
    | some v => some (v, memo)
    | none => has_known_bases_aux (has_known_bases env f) k (env.bases k) memo

inductive SubtypeErr where
  | nonDeducible
deriving Repr, DecidableEq

/-- `_type_check(type1, type2)`: demand known bases of both classes
(lazily — the second is not queried when the first already fails),
return `False` when either is not new-style, and otherwise test
`type1 in type2.mro()[:-1]`, an `MroError` becoming the
non-deducible signal. -/
def type_check (env : ClassEnv) (f : Nat) (memo : Memo)
    (type1 type2 : ClassId) : Option (Except SubtypeErr Bool × Memo) :=
  match has_known_bases env f memo type1 with
  | none => none
  | some (false, m1) => some (.error .nonDeducible, m1)
  | some (true, m1) =>
    match has_known_bases env f m1 type2 with
    | none => none
    | some (false, m2) => some (.error .nonDeducible, m2)
    | some (true, m2) =>
      if (env.newstyle type1 && env.newstyle type2) = false then
        some (.ok false, m2)
      else
        match env.mro type2 with
        | none => some (.error .nonDeducible, m2)
        | some l => some (.ok (l.dropLast.contains type1), m2)

/-- `is_subtype(type1, type2) = _type_check(type1=type2, type2=type1)`. -/
def is_subtype (env : ClassEnv) (f : Nat) (memo : Memo)
    (type1 type2 : ClassId) : Option (Except SubtypeErr Bool × Memo) :=
  type_check env f memo type2 type1

/-- `is_supertype(type1, type2) = _type_check(type1, type2)`. -/
def is_supertype (env : ClassEnv) (f : Nat) (memo : Memo)
    (type1 type2 : ClassId) : Option (Except SubtypeErr Bool × Memo) :=
  type_check env f memo type1 type2

/-- A built-in hierarchy: class 0 is `object` (no bases, MRO `[0]`),
class 1 is `str` (base `object`, MRO `[1, 0]`); everything is new-style. -/
def builtinEnv : ClassEnv :=
  { bases := fun k => if k = 1 then [some 0] else [],
    newstyle := fun _ => true,
    mro := fun k => if k = 1 then some [1, 0] else some [k] }

/-- C7 counterexample: under the built-in hierarchy, `is_subtype(str,
object)` is decidable but evaluates to `False` — the code tests
`object ∈ str.mro()[:-1]`, and the slice `[:-1]` drops `object` from
`str`'s MRO — refuting the claim that it is true (and with it the
claimed membership formula `a ∈ mro(b)[:-1]`, which would also make it
false). -/
theorem C7_str_object_cex :
    is_subtype builtinEnv 10 [] 1 0 = some (.ok false, [(1, true), (0, true)]) := by
  decide

/-- C7 (amended): when both classes have known bases and are new-style
and the MRO of the first argument is available, `is_subtype(a, b)`
holds iff `b` appears in `a`'s method-resolution order with the
trailing universal-base entry excluded (the claim's formula has the
roles of `a` and `b` swapped), and `is_supertype` is `is_subtype` with
the arguments swapped; in particular `is_subtype(str, object)` is
decidable and false under a built-in hierarchy, `object` being the
excluded trailing entry of `str`'s MRO. -/
theorem C7_subtype_mro_amended (env : ClassEnv) (f : Nat) (memo m1 m2 : Memo)
    (a b : ClassId) (l : List ClassId)
    (h1 : has_known_bases env f memo b = some (true, m1))
    (h2 : has_known_bases env f m1 a = some (true, m2))
    (hna : env.newstyle a = true) (hnb : env.newstyle b = true)
    (hm : env.mro a = some l) :
    is_subtype env f memo a b = some (.ok (l.dropLast.contains b), m2) ∧
    (∀ (g : Nat) (mm : Memo) (x y : ClassId),
      is_supertype env g mm x y = is_subtype env g mm y x) := by
  constructor
  · simp [is_subtype, type_check, h1, h2, hna, hnb, hm]
  · intro g mm x y
    rfl

/-- A hierarchy extending `builtinEnv` with a class 2 whose base is
`str` (class 1); MRO of 2 is `[2, 1, 0]`. -/
def builtinEnv2 : ClassEnv :=
  { bases := fun k => if k = 2 then [some 1] else if k = 1 then [some 0] else [],
    newstyle := fun _ => true,
    mro := fun k =>
      if k = 2 then some [2, 1, 0] else if k = 1 then some [1, 0] else some [k] }

/-- C7 witness: the amended membership formula evaluated concretely —
class 2 (base `str`) is a subtype of `str` because `str` remains in
`[2, 1, 0][:-1]`, while `str` is not a subtype of `object` because the
trailing `object` entry is dropped. -/
theorem C7_subtype_mro_amended_witness :
    is_subtype builtinEnv2 5 [] 2 1
      = some (.ok ([2, 1, 0].dropLast.contains 1), [(2, true), (1, true), (0, true)]) ∧
    is_subtype builtinEnv 5 [] 1 0
      = some (.ok ([1, 0].dropLast.contains 0), [(1, true), (0, true)]) ∧
    is_supertype builtinEnv 5 [] 0 1 = is_subtype builtinEnv 5 [] 1 0 := by
  refine ⟨?_, ?_, ?_⟩
  · exact (C7_subtype_mro_amended builtinEnv2 5 [] [(1, true), (0, true)]
      [(2, true), (1, true), (0, true)] 2 1 [2, 1, 0]
      (by decide) (by decide) rfl rfl (by decide)).1
  · exact (C7_subtype_mro_amended builtinEnv 5 [] [(0, true)]
      [(1, true), (0, true)] 1 0 [1, 0]
      (by decide) (by decide) rfl rfl (by decide)).1
  · exact (C7_subtype_mro_amended builtinEnv 5 [] [(0, true)]
      [(1, true), (0, true)] 1 0 [1, 0]
      (by decide) (by decide) rfl rfl (by decide)).2 5 [] 0 1

/-- A hierarchy of old-style classes with no bases: every
`_all_bases_known` computation succeeds, but `newstyle` is false. -/
def oldstyleEnv : ClassEnv :=
  { bases := fun _ => [],
    newstyle := fun _ => false,
    mro := fun k => some [k] }

/-- C8 counterexample: two old-style classes with perfectly known
(empty) base chains — the claim says `is_subtype` must raise the
non-deducible signal when a class does not participate in the modern
class model, but the code returns the boolean `False`. -/
theorem C8_oldstyle_cex :
    is_subtype oldstyleEnv 3 [] 3 4 = some (.ok false, [(3, true), (4, true)]) := by
  decide

theorem has_known_bases_aux_records (g : Memo → ClassId → Option (Bool × Memo))
    (k : ClassId) (l : List (Option ClassId)) (m m' : Memo) (v : Bool)
    (h : has_known_bases_aux g k l m = some (v, m')) :
    memo_lookup k m' = some v := by
  induction l generalizing m with
  | nil =>
    simp only [has_known_bases_aux] at h
    obtain ⟨hv, hm⟩ := Prod.mk.injEq .. ▸ Option.some.injEq .. ▸ h
    subst hm
    simp [memo_lookup, ← hv]
  | cons b rest ih =>
    match b with
    | none =>
      simp only [has_known_bases_aux] at h
      obtain ⟨hv, hm⟩ := Prod.mk.injEq .. ▸ Option.some.injEq .. ▸ h
      subst hm
      simp [memo_lookup, ← hv]
    | some r =>
      simp only [has_known_bases_aux] at h
      by_cases hr : r = k
      · rw [if_pos hr] at h
        obtain ⟨hv, hm⟩ := Prod.mk.injEq .. ▸ Option.some.injEq .. ▸ h
        subst hm
        simp [memo_lookup, ← hv]
      · rw [if_neg hr] at h
        match hg : g m r with
        | none => rw [hg] at h; exact absurd h (by simp)
        | some (true, m'') =>
          rw [hg] at h
          exact ih m'' h
        | some (false, m'') =>
          rw [hg] at h
          obtain ⟨hv, hm⟩ := Prod.mk.injEq .. ▸ Option.some.injEq .. ▸ h
          subst hm
          simp [memo_lookup, ← hv]

/-- C8 (amended): when either class lacks a fully known base-class
chain — the first failing `has_known_bases` answer, computed lazily —
or the method-resolution order is invalid, `_type_check` (and with it
`is_subtype` and `is_supertype`, which are direct argument shuffles of
it) raises the distinguished non-deducible signal rather than
returning a boolean; when both chains are known but either class is
old-style the code returns `False` instead of raising; and the
known-bases check is memoised per class: a cached `_all_bases_known`
answer is returned at once without recomputation, and every computed
answer is recorded in the cache. -/
theorem C8_type_check_amended (env : ClassEnv) (f : Nat) (memo : Memo)
    (t1 t2 : ClassId) :
    (∀ m1, has_known_bases env f memo t1 = some (false, m1) →
      type_check env f memo t1 t2 = some (.error .nonDeducible, m1)) ∧
    (∀ m1 m2, has_known_bases env f memo t1 = some (true, m1) →
      has_known_bases env f m1 t2 = some (false, m2) →
      type_check env f memo t1 t2 = some (.error .nonDeducible, m2)) ∧
    (∀ m1 m2, has_known_bases env f memo t1 = some (true, m1) →
      has_known_bases env f m1 t2 = some (true, m2) →
      env.newstyle t1 = true → env.newstyle t2 = true → env.mro t2 = none →
      type_check env f memo t1 t2 = some (.error .nonDeducible, m2)) ∧
    (∀ m1 m2, has_known_bases env f memo t1 = some (true, m1) →
      has_known_bases env f m1 t2 = some (true, m2) →
      (env.newstyle t1 && env.newstyle t2) = false →
      type_check env f memo t1 t2 = some (.ok false, m2)) ∧
    (is_subtype env f memo t1 t2 = type_check env f memo t2 t1) ∧
    (is_supertype env f memo t1 t2 = type_check env f memo t1 t2) ∧
    (∀ v, memo_lookup t1 memo = some v →
      has_known_bases env (f + 1) memo t1 = some (v, memo)) ∧
    (∀ v m', has_known_bases env (f + 1) memo t1 = some (v, m') →
      memo_lookup t1 m' = some v) := by
  refine ⟨?_, ?_, ?_, ?_, rfl, rfl, ?_, ?_⟩
  · intro m1 h1
    simp [type_check, h1]
  · intro m1 m2 h1 h2
    simp [type_check, h1, h2]
  · intro m1 m2 h1 h2 hn1 hn2 hm
    simp [type_check, h1, h2, hn1, hn2, hm]
  · intro m1 m2 h1 h2 hn
    simp [type_check, h1, h2, hn]
  · intro v hv
    simp [has_known_bases, hv]
  · intro v m' h
    simp only [has_known_bases] at h
    match hl : memo_lookup t1 memo with
    | some w =>
      rw [hl] at h
      obtain ⟨hv, hm⟩ := Prod.mk.injEq .. ▸ Option.some.injEq .. ▸ h
      subst hm
      rw [hl, hv]
    | none =>
      rw [hl] at h
      exact has_known_bases_aux_records _ t1 (env.bases t1) memo m' v h

/-- A hierarchy with an unresolvable base: class 9's single base does
not infer to a `ClassDef`; class 0 has no bases; everything new-style
but class 9's chain is unknown. -/
def unknownBasesEnv : ClassEnv :=
  { bases := fun k => if k = 9 then [none] else [],
    newstyle := fun _ => true,
    mro := fun k => some [k] }

/-- A hierarchy whose MRO computation fails for every class. -/
def mroErrEnv : ClassEnv :=
  { bases := fun _ => [],
    newstyle := fun _ => true,
    mro := fun _ => none }

/-- C8 witness: the amended contract evaluated concretely — an unknown
base chain in either argument position raises the signal, an invalid
MRO raises it, two known old-style chains return `False`, and the memo
is consulted and populated. -/
theorem C8_type_check_amended_witness :
    type_check unknownBasesEnv 5 [] 9 0 = some (.error .nonDeducible, [(9, false)]) ∧
    type_check unknownBasesEnv 5 [] 0 9
      = some (.error .nonDeducible, [(9, false), (0, true)]) ∧
    type_check mroErrEnv 5 [] 0 1
      = some (.error .nonDeducible, [(1, true), (0, true)]) ∧
    type_check oldstyleEnv 3 [] 4 3 = some (.ok false, [(3, true), (4, true)]) ∧
    has_known_bases oldstyleEnv 3 [(7, true)] 7 = some (true, [(7, true)]) ∧
    memo_lookup 9 (has_known_bases unknownBasesEnv 1 [] 9).iget.2 = some false := by
  refine ⟨?_, ?_, ?_, ?_, ?_, ?_⟩
  · exact (C8_type_check_amended unknownBasesEnv 5 [] 9 0).1 [(9, false)] (by decide)
  · exact (C8_type_check_amended unknownBasesEnv 5 [] 0 9).2.1 [(0, true)]
      [(9, false), (0, true)] (by decide) (by decide)
  · exact (C8_type_check_amended mroErrEnv 5 [] 0 1).2.2.1 [(0, true)]
      [(1, true), (0, true)] (by decide) (by decide) rfl rfl rfl
  · exact (C8_type_check_amended oldstyleEnv 3 [] 4 3).2.2.2.1 [(4, true)]
      [(3, true), (4, true)] (by decide) (by decide) rfl
  · exact (C8_type_check_amended oldstyleEnv 2 [(7, true)] 7 0).2.2.2.2.2.2.1
      true (by decide)
  · exact (C8_type_check_amended unknownBasesEnv 0 [] 9 0).2.2.2.2.2.2.2
      false [(9, false)] (by decide)

/-! ### Embedding of `parser/manager.py`: `file_from_module_name`

The process-wide `_mod_file_cache` maps `(modname, contextfile)` keys to
either a resolved file-location record or the recorded `ImportError`
built around the failed resolution.  The underlying resolution routine
`file_info_from_modpath` is a parameter `resolve`; `resolveCalls`
counts its invocations (the "resolution hook" of the specification). -/

/-- A cached resolution outcome: a file-location record, or the
`ImportError` value recording a failure for `modname`. -/
inductive CacheVal where
  | loc (fileInfo : Nat)
  | importErr (modname : String)
deriving Repr, DecidableEq

/-- The guard `isinstance(value, ValueError)` of the source: neither a
file-location record nor an `ImportError` is a `ValueError`. -/
def isValueErrorVal : CacheVal → Bool
  | .loc _ => false
  | .importErr _ => false

structure MgrState where
  mod_file_cache : List ((String × Option String) × CacheVal)
  resolveCalls : Nat
deriving Repr, DecidableEq

def cache_lookup (key : String × Option String) :
    List ((String × Option String) × CacheVal) → Option CacheVal
  | [] => none
  | (k, v) :: rest => if k = key then some v else cache_lookup key rest

/-- `Manager.file_from_module_name(modname, contextfile)`: consult the
cache; on a miss run the resolution routine once, wrapping an
`ImportError` into a recorded failure value, and store the outcome
under the key; finally raise the value if it is a `ValueError` (it
never is) and return it otherwise. -/
def file_from_module_name
    (resolve : String → Option String → Except Unit Nat)
    (st : MgrState) (modname : String) (contextfile : Option String) :
    Except CacheVal CacheVal × MgrState :=
  match cache_lookup (modname, contextfile) st.mod_file_cache with
  | some value =>
    (if isValueErrorVal value then .error value else .ok value, st)
  | none =>
    let value : CacheVal :=
      match resolve modname contextfile with
      | .ok l => .loc l
      | .error _ => .importErr modname
    let st' : MgrState :=
      { mod_file_cache := ((modname, contextfile), value) :: st.mod_file_cache,
        resolveCalls := st.resolveCalls + 1 }
    (if isValueErrorVal value then .error value else .ok value, st')

/-- C9: when the first resolution of a `(module name, context file)` key
fails, the failure is recorded in the cache and handed to the caller,
and every subsequent lookup with the same key replays the identical
recorded failure without re-attempting resolution: the second call
returns the same outcome and leaves the state — including the
invocation counter of the resolution routine — untouched, so the
routine ran exactly once for the key. -/
theorem C9_resolution_negative_replay
    (resolve : String → Option String → Except Unit Nat)
    (st : MgrState) (modname : String) (contextfile : Option String)
    (h1 : cache_lookup (modname, contextfile) st.mod_file_cache = none)
    (h2 : resolve modname contextfile = .error ()) :
    ((file_from_module_name resolve st modname contextfile).1
      = .ok (.importErr modname)) ∧
    ((file_from_module_name resolve st modname contextfile).2.resolveCalls
      = st.resolveCalls + 1) ∧
    (file_from_module_name resolve
        ((file_from_module_name resolve st modname contextfile).2)
        modname contextfile
      = ((file_from_module_name resolve st modname contextfile).1,
         (file_from_module_name resolve st modname contextfile).2)) := by
  have hfirst : file_from_module_name resolve st modname contextfile
      = (.ok (.importErr modname),
         { mod_file_cache :=
             ((modname, contextfile), CacheVal.importErr modname) :: st.mod_file_cache,
           resolveCalls := st.resolveCalls + 1 }) := by
    simp [file_from_module_name, h1, h2, isValueErrorVal]
  refine ⟨by rw [hfirst], by rw [hfirst], ?_⟩
  rw [hfirst]
  simp [file_from_module_name, cache_lookup, isValueErrorVal]

/-- C9 witness: a resolver that always fails, called twice on an empty
cache. -/
theorem C9_resolution_negative_replay_witness :
    ((file_from_module_name (fun _ _ => .error ()) (MgrState.mk [] 0)
        "missing.mod" none).1 = .ok (.importErr "missing.mod")) ∧
    ((file_from_module_name (fun _ _ => .error ()) (MgrState.mk [] 0)
        "missing.mod" none).2.resolveCalls = 0 + 1) ∧
    (file_from_module_name (fun _ _ => .error ())
        ((file_from_module_name (fun _ _ => .error ()) (MgrState.mk [] 0)
          "missing.mod" none).2) "missing.mod" none
      = ((file_from_module_name (fun _ _ => .error ()) (MgrState.mk [] 0)
            "missing.mod" none).1,
         (file_from_module_name (fun _ _ => .error ()) (MgrState.mk [] 0)
            "missing.mod" none).2)) :=
  C9_resolution_negative_replay (fun _ _ => .error ()) (MgrState.mk [] 0)
    "missing.mod" none rfl rfl

/-! ### Embedding of `parser/builder.py`: `parse` and `textwrap.dedent`

Source text is a list of lines, each a list of characters (the newline
separators are implicit).  `dedent` follows `textwrap.dedent`: lines
consisting solely of spaces and tabs are first normalised to empty
lines; the margin is the longest common leading-whitespace run of the
lines that still have content; a non-empty margin is then stripped from
the front of every line that starts with it. -/

abbrev Line := List Char

def isWsChar (c : Char) : Bool := c = ' ' || c = '\t'

/-- Effect of the `_whitespace_only_re` substitution on one line. -/
def normalizeLine (l : Line) : Line := if l.all isWsChar then [] else l

/-- The `_leading_whitespace_re` capture for a line with content. -/
def indentOf (l : Line) : Line := l.takeWhile isWsChar

/-- Longest common leading run of two indents. -/
def lcp : Line → Line → Line
  | a :: as, b :: bs => if a = b then a :: lcp as bs else []
  | _, _ => []

/-- The margin: the common run of all collected indents. -/
def marginOf : List Line → Line
  | [] => []
  | i :: is => is.foldl lcp i

/-- Whether a line starts with the margin (the anchored `re.sub`
matches it). -/
def hasMargin : Line → Line → Bool
  | [], _ => true
  | _ :: _, [] => false
  | a :: as, b :: bs => if a = b then hasMargin as bs else false

/-- `textwrap.dedent(text)`. -/
def dedent (ls : List Line) : List Line :=
  let norm := ls.map normalizeLine
  let m := marginOf ((norm.filter (fun l => !(l.all isWsChar))).map indentOf)
  if m.isEmpty then norm
  else norm.map (fun l => if hasMargin m l then l.drop m.length else l)

/-- `parse(code, ...)`: `code = textwrap.dedent(code)` and then the
build of the dedented text (`Builder(...).string_build(code, ...)`),
abstracted here as an arbitrary function of the dedented lines. -/
def parse {α : Type} (string_build : List Line → α) (code : List Line) : α :=
  string_build (dedent code)

theorem takeWhile_ws_append (l : Line) : ∀ w : Line, w.all isWsChar = true →
    (w ++ l).takeWhile isWsChar = w ++ l.takeWhile isWsChar
  | [], _ => rfl
  | c :: cs, hw => by
    simp only [List.all_cons, Bool.and_eq_true] at hw
    simp only [List.cons_append, List.takeWhile_cons, hw.1, if_true]
    rw [takeWhile_ws_append l cs hw.2]

theorem lcp_self : ∀ l : Line, lcp l l = l
  | [] => rfl
  | c :: cs => by simp [lcp, lcp_self cs]

theorem foldl_lcp_self (w : Line) : ∀ is : List Line, (∀ i ∈ is, i = w) →
    is.foldl lcp w = w
  | [], _ => rfl
  | i :: tl, h => by
    have hi : i = w := h i (List.mem_cons_self i tl)
    subst hi
    rw [List.foldl_cons, lcp_self]
    exact foldl_lcp_self i tl (fun j hj => h j (List.mem_cons_of_mem i hj))

theorem foldl_lcp_nil : ∀ is : List Line, is.foldl lcp [] = []
  | [] => rfl
  | _ :: tl => foldl_lcp_nil tl

theorem marginOf_const (w : Line) : ∀ is : List Line, (∀ i ∈ is, i = w) →
    is ≠ [] → marginOf is = w
  | [], _, hne => absurd rfl hne
  | i :: tl, h, _ => by
    have hi : i = w := h i (List.mem_cons_self i tl)
    subst hi
    exact foldl_lcp_self i tl (fun j hj => h j (List.mem_cons_of_mem i hj))

theorem marginOf_nil_list : ∀ is : List Line, (∀ i ∈ is, i = ([] : Line)) →
    marginOf is = []
  | [], _ => rfl
  | i :: tl, h => by
    have hi : i = ([] : Line) := h i (List.mem_cons_self i tl)
    subst hi
    exact foldl_lcp_nil tl

theorem hasMargin_append : ∀ w l : Line, hasMargin w (w ++ l) = true
  | [], _ => rfl
  | c :: cs, l => by simp [hasMargin, hasMargin_append cs l]

theorem map_congr_mem {α β : Type} (f g : α → β) : ∀ l : List α,
    (∀ a ∈ l, f a = g a) → l.map f = l.map g
  | [], _ => rfl
  | a :: tl, h => by
    simp only [List.map_cons, List.cons.injEq]
    exact ⟨h a (List.mem_cons_self a tl),
      map_congr_mem f g tl (fun b hb => h b (List.mem_cons_of_mem a hb))⟩

theorem norm_map_indent (w : Line) (hw : w.all isWsChar = true) :
    ∀ code : List Line,
    (code.map (fun l => w ++ l)).map normalizeLine
      = code.map (fun l => if l.all isWsChar then [] else w ++ l)
  | [] => rfl
  | l :: tl => by
    simp only [List.map_cons, List.cons.injEq]
    refine ⟨?_, norm_map_indent w hw tl⟩
    simp [normalizeLine, List.all_append, hw]

theorem filter_norm_indent (w : Line) : ∀ code : List Line,
    ((code.map (fun l => if l.all isWsChar then [] else w ++ l)).filter
        (fun l => !(l.all isWsChar)))
      = (code.filter (fun l => !(l.all isWsChar))).map (fun l => w ++ l)
  | [] => rfl
  | l :: tl => by
    have ih := filter_norm_indent w tl
    simp only [List.map_cons, List.filter_cons]
    by_cases hall : l.all isWsChar = true
    · rw [if_pos hall,
        if_neg (by decide : ¬ ((!(([] : Line).all isWsChar)) = true)),
        if_neg (show ¬ ((!(l.all isWsChar)) = true) by rw [hall]; decide)]
      exact ih
    · have hall' : l.all isWsChar = false := by
        cases h : l.all isWsChar
        · rfl
        · exact absurd h hall
      rw [if_neg hall,
        if_pos (show (!((w ++ l).all isWsChar)) = true by
          rw [List.all_append, hall']
          simp),
        if_pos (show (!(l.all isWsChar)) = true by rw [hall']; rfl)]
      rw [List.map_cons, ih]

theorem indent_map_indent (w : Line) (hw : w.all isWsChar = true)
    (cl : List Line) (hcl : ∀ l ∈ cl, indentOf l = []) :
    (cl.map (fun l => w ++ l)).map indentOf = cl.map (fun _ => w) := by
  rw [List.map_map]
  refine map_congr_mem _ _ cl (fun l hl => ?_)
  show (w ++ l).takeWhile isWsChar = w
  rw [takeWhile_ws_append l w hw]
  have : l.takeWhile isWsChar = [] := hcl l hl
  rw [this, List.append_nil]

theorem filter_norm_id : ∀ code : List Line,
    ((code.map normalizeLine).filter (fun l => !(l.all isWsChar)))
      = code.filter (fun l => !(l.all isWsChar)) := by
  intro code
  induction code with
  | nil => rfl
  | cons l tl ih =>
    by_cases hall : l.all isWsChar = true
    · simp [normalizeLine, List.filter_cons, hall, ih]
    · have hall' : l.all isWsChar = false := by
        cases h : l.all isWsChar
        · rfl
        · exact absurd h hall
      simp [normalizeLine, List.filter_cons, hall', ih]

theorem dedent_map_drop (w : Line) (hwne : hasMargin w [] = false) :
    ∀ code : List Line,
    ((code.map (fun l => if l.all isWsChar then [] else w ++ l)).map
        (fun l => if hasMargin w l then l.drop w.length else l))
      = code.map normalizeLine
  | [] => rfl
  | l :: tl => by
    simp only [List.map_cons, List.cons.injEq]
    refine ⟨?_, dedent_map_drop w hwne tl⟩
    by_cases hall : l.all isWsChar = true
    · simp [hall, hwne, normalizeLine]
    · simp [hall, hasMargin_append, normalizeLine, List.drop_left]

theorem dedent_of_indent (w : Line) (code : List Line)
    (hw : w.all isWsChar = true)
    (hcode : ∀ l ∈ code, l.all isWsChar = true ∨ indentOf l = [])
    (hnb : ∃ l, l ∈ code ∧ l.all isWsChar = false) :
    dedent (code.map (fun l => w ++ l)) = dedent code := by
  obtain ⟨l0, hl0mem, hl0⟩ := hnb
  have hCLmem : l0 ∈ code.filter (fun l => !(l.all isWsChar)) := by
    rw [List.mem_filter]
    exact ⟨hl0mem, by rw [hl0]; rfl⟩
  have hCLne : code.filter (fun l => !(l.all isWsChar)) ≠ [] :=
    List.ne_nil_of_mem hCLmem
  have hCLind : ∀ l ∈ code.filter (fun l => !(l.all isWsChar)), indentOf l = [] := by
    intro l hl
    rw [List.mem_filter] at hl
    rcases hcode l hl.1 with h | h
    · rw [h] at hl
      simp at hl
    · exact h
  have hRHS : dedent code = code.map normalizeLine := by
    simp only [dedent]
    rw [filter_norm_id code,
      map_congr_mem indentOf (fun _ => ([] : Line)) _ hCLind,
      marginOf_nil_list _ (fun j hj => by
        obtain ⟨a, _, ha⟩ := List.mem_map.mp hj
        exact ha.symm)]
    simp
  cases w with
  | nil =>
    simp only [List.nil_append]
    rw [hRHS]
    have : code.map (fun l => l) = code := by simp
    rw [this, hRHS]
  | cons c w' =>
    rw [hRHS]
    simp only [dedent]
    rw [norm_map_indent (c :: w') hw code, filter_norm_indent (c :: w') code,
      indent_map_indent (c :: w') hw _ hCLind,
      marginOf_const (c :: w') _ (fun j hj => by
        obtain ⟨a, _, ha⟩ := List.mem_map.mp hj
        exact ha.symm)
        (fun hmapnil => hCLne (List.map_eq_nil_iff.mp hmapnil))]
    simp only [List.isEmpty, if_false, Bool.false_eq_true]
    exact dedent_map_drop (c :: w') rfl code

/-- C10: the public `parse` entry point normalises the source with
`textwrap.dedent` before building, so `parse` applied to a uniformly
indented snippet (every non-blank line carrying the same whitespace
margin, the unindented form carrying none) produces the very same
build result — whatever the builder computes, including any
success-or-syntax-error outcome — as `parse` applied to the unindented
form. -/
theorem C10_parse_dedent {α : Type} (string_build : List Line → α)
    (w : Line) (code : List Line)
    (hw : w.all isWsChar = true)
    (hcode : ∀ l ∈ code, l.all isWsChar = true ∨ indentOf l = [])
    (hnb : ∃ l, l ∈ code ∧ l.all isWsChar = false) :
    parse string_build (code.map (fun l => w ++ l)) = parse string_build code :=
  congrArg string_build (dedent_of_indent w code hw hcode hnb)

/-- C10 witness: a snippet of an assignment line and a blank line,
indented by two spaces, parses to the same lines as its unindented
form. -/
theorem C10_parse_dedent_witness :
    parse (fun ls => ls)
        ([['x', ' ', '=', ' ', '1'], [' ']].map (fun l => [' ', ' '] ++ l))
      = parse (fun ls => ls) [['x', ' ', '=', ' ', '1'], [' ']] := by
  have hcode : ∀ l ∈ [['x', ' ', '=', ' ', '1'], [' ']],
      l.all isWsChar = true ∨ indentOf l = [] := by
    decide
  exact C10_parse_dedent (fun ls => ls) [' ', ' ']
    [['x', ' ', '=', ' ', '1'], [' ']]
    (by decide) hcode ⟨['x', ' ', '=', ' ', '1'], by decide⟩

end AstParser
